import Mathlib

/-!
# Verification of the Kepler orbital-element propagator

A shallow embedding, over the real numbers, of the orbital-element
propagator and its cross-validation routine from `d3/script.js`
(`solveKepler`, `elementsToPosition`, `crossValidateElements`), together
with proofs of the specification's claims about them.

JavaScript numbers are modelled as real numbers; `null`/`undefined`
values are modelled with `Option`; the JavaScript remainder operator `%`
(truncated remainder) is modelled explicitly.
-/

namespace Orbital

noncomputable section

/-- `const AU_KM = 149597870.7` — kilometres per astronomical unit. -/
def AU_KM : ℝ := 149597870.7

/-- `const MU_SUN = 1.32712440018e11` — solar gravitational parameter, km³/s². -/
def MU_SUN : ℝ := 1.32712440018e11

/-- Truncation toward zero, as JavaScript division underlying `%` uses. -/
def rtrunc (x : ℝ) : ℤ := if 0 ≤ x then ⌊x⌋ else ⌈x⌉

/-- The JavaScript remainder operator `a % b` (truncated remainder,
sign of the dividend). -/
def jsRem (a b : ℝ) : ℝ := a - b * rtrunc (a / b)

/-- `2π`, the modulus used by the solver's normalization. -/
def twoPi : ℝ := 2 * Real.pi

/-- `M = ((M % (2*Math.PI)) + 2*Math.PI) % (2*Math.PI)` — the first line of
`solveKepler`, normalizing the mean anomaly. -/
def normalizeM (M : ℝ) : ℝ := jsRem (jsRem M twoPi + twoPi) twoPi

/-- One Newton–Raphson update of `solveKepler`:
`E + dE` where `dE = -(E - e*sin E - M) / (1 - e*cos E)`. -/
def keplerStep (M e E : ℝ) : ℝ :=
  E + -(E - e * Real.sin E - M) / (1 - e * Real.cos E)

/-- The `for` loop of `solveKepler`: at most `fuel` Newton updates,
returning as soon as the last update moved by less than `tol`. -/
def keplerLoop (M e tol : ℝ) : ℕ → ℝ → ℝ
  | 0, E => E
  | fuel + 1, E =>
    let E' := keplerStep M e E
    if |E' - E| < tol then E' else keplerLoop M e tol fuel E'

/-- `solveKepler(M, e, tol=1e-9, maxiter=80)` from `d3/script.js`:
normalize `M` into `[0, 2π)`, start from `M` when `e < 0.8` else from `π`,
and run the Newton loop. -/
def solveKepler (M e tol : ℝ) (maxiter : ℕ) : ℝ :=
  let Mn := normalizeM M
  let E0 := if e < 0.8 then Mn else Real.pi
  keplerLoop Mn e tol maxiter E0

/-- `solveKepler` with its JavaScript default arguments `tol=1e-9`, `maxiter=80`. -/
def solveKeplerD (M e : ℝ) : ℝ := solveKepler M e 1e-9 80

/-- `Math.atan2(y, x)`, modelled as the argument of the complex number `x + y·i`
(range `(-π, π]`, `atan2 0 0 = 0`, matching JavaScript). -/
def atan2 (y x : ℝ) : ℝ := Complex.arg (Complex.mk x y)

/-- The mean motion `n = Math.sqrt(MU_SUN / (a_km*a_km*a_km))` computed by
`elementsToPosition`, in rad/s, as a function of the semi-major axis in AU. -/
def meanMotion (a_AU : ℝ) : ℝ :=
  Real.sqrt (MU_SUN / (a_AU * AU_KM * (a_AU * AU_KM) * (a_AU * AU_KM)))

/-- `elementsToPosition(a_AU, e, i_deg, Omega_deg, omega_deg, M_deg, epochJD,
targetJD)` from `d3/script.js`: heliocentric ecliptic position in km.
`targetJD = none` models the JavaScript `null` default. -/
def elementsToPosition (a_AU e i_deg Omega_deg omega_deg M_deg epochJD : ℝ)
    (targetJD : Option ℝ) : ℝ × ℝ × ℝ :=
  let a_km := a_AU * AU_KM
  let i := i_deg * Real.pi / 180
  let Omega := Omega_deg * Real.pi / 180
  let omega := omega_deg * Real.pi / 180
  let n := meanMotion a_AU
  let M0 := M_deg * Real.pi / 180
  let M := match targetJD with
    | none => M0
    | some t => M0 + n * ((t - epochJD) * 86400.0)
  let E := solveKeplerD M e
  let cosE := Real.cos E
  let sinE := Real.sin E
  let sqrt1e2 := Real.sqrt (1 - e * e)
  let nu := atan2 (sqrt1e2 * sinE) (cosE - e)
  let r := a_km * (1 - e * cosE)
  let x_pf := r * Real.cos nu
  let y_pf := r * Real.sin nu
  let z_pf : ℝ := 0
  let cosO := Real.cos Omega
  let sinO := Real.sin Omega
  let cosi := Real.cos i
  let sini := Real.sin i
  let cosw := Real.cos omega
  let sinw := Real.sin omega
  let r11 := cosO * cosw - sinO * sinw * cosi
  let r12 := -cosO * sinw - sinO * cosw * cosi
  let r13 := sinO * sini
  let r21 := sinO * cosw + cosO * sinw * cosi
  let r22 := -sinO * sinw + cosO * cosw * cosi
  let r23 := -cosO * sini
  let r31 := sinw * sini
  let r32 := cosw * sini
  let r33 := cosi
  (r11 * x_pf + r12 * y_pf + r13 * z_pf,
   r21 * x_pf + r22 * y_pf + r23 * z_pf,
   r31 * x_pf + r32 * y_pf + r33 * z_pf)

/-- The per-object orbital elements read by `crossValidateElements`
(`obj.elements.a_AU`, `obj.elements.e`, `obj.elements.i_deg`); each field
may be `undefined`, modelled by `none`. -/
structure OrbElems where
  a_AU : Option ℝ
  e : Option ℝ
  i_deg : Option ℝ

/-- The slice of a scene object read by `crossValidateElements`:
optional elements and the recorded position arrays `obj.x`, `obj.y`, `obj.z`,
indexed by the shared time grid, with `none` for a `null` entry. -/
structure OrbObject where
  elements : Option OrbElems
  x : ℕ → Option ℝ
  y : ℕ → Option ℝ
  z : ℕ → Option ℝ

/-- The result object `{rms_km, samples}` returned by `crossValidateElements`. -/
structure ValidationResult where
  rms_km : ℝ
  samples : ℕ

/-- The guard of `crossValidateElements`:
`if (!obj.elements || !obj.elements.a_AU || obj.elements.e === undefined ||
obj.elements.i_deg === undefined) return null`. A present semi-major axis
equal to `0` is falsy in JavaScript, hence rejected. Returns the element
triple `(a_AU, e, i_deg)` when the guard passes. -/
def getElems : Option OrbElems → Option (ℝ × ℝ × ℝ)
  | none => none
  | some el =>
    match el.a_AU, el.e, el.i_deg with
    | some a, some e, some i => if a = 0 then none else some (a, e, i)
    | _, _, _ => none

/-- The indices `i < times.length` with `obj.x[i] !== null && obj.y[i] !== null`
(the `validIdx` array of `crossValidateElements`). -/
def validIdx (times_jd : List ℝ) (obj : OrbObject) : List ℕ :=
  (List.range times_jd.length).filter fun i => (obj.x i).isSome && (obj.y i).isSome

/-- The sampling loop of `crossValidateElements`:
`for (j = 0; j < len && samples.length < cap; j += step) samples.push(j)`,
recorded as the list of positions `j` pushed. Recursion is on the remaining
capacity, which drops by one at every push. -/
def strideCollect (len step : ℕ) : ℕ → ℕ → List ℕ
  | _, 0 => []
  | j, cap + 1 => if j < len then j :: strideCollect len step (j + step) cap else []

/-- The sample positions selected by `crossValidateElements` out of
`validCount` valid indices: stride `max(1, floor(validCount / cap))`,
starting at position 0. -/
def selectSamples (validCount cap : ℕ) : List ℕ :=
  strideCollect validCount (max 1 (validCount / cap)) 0 cap

/-- The squared Euclidean residual accumulated by `crossValidateElements` at
time index `idx`: recorded position (`null` `z` coerced to 0 by `|| 0`) minus
the position propagated with `Ω = ω = M₀ = 0`, `epoch = 2451545.0`. -/
def sqResidual (times_jd : List ℝ) (obj : OrbObject) (a e i : ℝ) (idx : ℕ) : ℝ :=
  let jd := times_jd.getD idx 0
  let p := elementsToPosition a e i 0 0 0 2451545.0 (some jd)
  let dx := ((obj.x idx).getD 0) - p.1
  let dy := ((obj.y idx).getD 0) - p.2.1
  let dz := ((obj.z idx).getD 0) - p.2.2
  dx * dx + dy * dy + dz * dz

/-- The `samples` array built by `crossValidateElements`: the valid indices
sitting at the selected evenly-spaced positions. -/
def sampleIndices (times_jd : List ℝ) (obj : OrbObject) (numSamples : ℕ) : List ℕ :=
  (selectSamples (validIdx times_jd obj).length numSamples).map fun j =>
    (validIdx times_jd obj).getD j 0

/-- `crossValidateElements(obj, numSamples)` from `d3/script.js`. The shared
time grid `scene.times_jd` is passed explicitly. The `for (const idx of
samples)` accumulation of `sqsum` and `count` is modelled by a left fold over
the selected sample indices. -/
def crossValidateElements (times_jd : List ℝ) (obj : OrbObject)
    (numSamples : ℕ) : Option ValidationResult :=
  match getElems obj.elements with
  | none => none
  | some (a, e, i) =>
    if (validIdx times_jd obj).length < 3 then none
    else
      let acc := (sampleIndices times_jd obj numSamples).foldl
        (fun (p : ℝ × ℕ) idx => (p.1 + sqResidual times_jd obj a e i idx, p.2 + 1))
        (0, 0)
      if acc.2 = 0 then none
      else some ⟨Real.sqrt (acc.1 / acc.2), acc.2⟩

/-! ## Specification-side definitions

The following definitions are written from the words of the specification
(and of the claims derived from it), to be compared with the embedded code
above. -/

/-- Frame (passive) rotation about the z-axis by angle `t` — the standard
astrodynamics `ROT3` matrix applied to a vector. -/
def rotZ (t : ℝ) (v : ℝ × ℝ × ℝ) : ℝ × ℝ × ℝ :=
  (Real.cos t * v.1 + Real.sin t * v.2.1,
   -Real.sin t * v.1 + Real.cos t * v.2.1,
   v.2.2)

/-- Frame (passive) rotation about the x-axis by angle `t` — the standard
astrodynamics `ROT1` matrix applied to a vector. -/
def rotX (t : ℝ) (v : ℝ × ℝ × ℝ) : ℝ × ℝ × ℝ :=
  (v.1,
   Real.cos t * v.2.1 + Real.sin t * v.2.2,
   -Real.sin t * v.2.1 + Real.cos t * v.2.2)

/-- The normalization of the specification: the representative of `M`
modulo `2π` lying in `[0, 2π)`. -/
def specNormalize (M : ℝ) : ℝ := M - twoPi * ⌊M / twoPi⌋

/-- The Newton–Raphson iteration as the specification words it: update
`E ← E − f(E)/f'(E)` with `f(E) = E − e·sin E − M`, `f'(E) = 1 − e·cos E`,
returning the current iterate as soon as the last update satisfies
`|ΔE| < tol`, or after at most `fuel` updates. -/
def specNewton (M e tol : ℝ) : ℕ → ℝ → ℝ
  | 0, E => E
  | fuel + 1, E =>
    let dE := (E - e * Real.sin E - M) / (1 - e * Real.cos E)
    if |dE| < tol then E - dE else specNewton M e tol fuel (E - dE)

/-- `solveEccentricAnomaly(meanAnomaly, eccentricity, tolerance,
maxIterations)` as the specification describes it: normalize `M` into
`[0, 2π)`, take initial guess `E₀ = M` when `e < 0.8` else `E₀ = π`, then
Newton–Raphson. -/
def solveEccentricAnomaly (M e tol : ℝ) (maxIterations : ℕ) : ℝ :=
  let Mn := specNormalize M
  let E0 := if e < 0.8 then Mn else Real.pi
  specNewton Mn e tol maxIterations E0

/-- The reference pipeline of the specification for `elementsToPosition`:
`a_km = a·AU_KM`; `n = √(μ/a_km³)`; `M = M₀ + n·Δt` (Δt in seconds) when a
target date is given, else `M = M₀`; `E` from the Kepler solver;
`ν = atan2(√(1−e²)·sin E, cos E − e)`; `r = a_km·(1 − e·cos E)`; perifocal
vector `(r·cos ν, r·sin ν, 0)` rotated into the ecliptic frame by the
composition `Rz(−Ω)·Rx(−i)·Rz(−ω)`. -/
def referencePosition (a_AU e i_deg Omega_deg omega_deg M_deg epochJD : ℝ)
    (targetJD : Option ℝ) : ℝ × ℝ × ℝ :=
  let a_km := a_AU * AU_KM
  let i := i_deg * Real.pi / 180
  let Omega := Omega_deg * Real.pi / 180
  let omega := omega_deg * Real.pi / 180
  let n := Real.sqrt (MU_SUN / (a_km * a_km * a_km))
  let M0 := M_deg * Real.pi / 180
  let M := match targetJD with
    | none => M0
    | some t => M0 + n * ((t - epochJD) * 86400.0)
  let E := solveKeplerD M e
  let nu := atan2 (Real.sqrt (1 - e * e) * Real.sin E) (Real.cos E - e)
  let r := a_km * (1 - e * Real.cos E)
  rotZ (-Omega) (rotX (-i) (rotZ (-omega) (r * Real.cos nu, r * Real.sin nu, 0)))

/-- The number of Newton updates actually performed by the `solveKepler`
loop before it stops (by convergence or by exhausting the iteration cap). -/
def keplerLoopCount (M e tol : ℝ) : ℕ → ℝ → ℕ
  | 0, _ => 0
  | fuel + 1, E =>
    let E' := keplerStep M e E
    if |E' - E| < tol then 1 else 1 + keplerLoopCount M e tol fuel E'

/-- The number of Newton updates performed by `solveKepler M e tol maxiter`. -/
def solveKeplerCount (M e tol : ℝ) (maxiter : ℕ) : ℕ :=
  let Mn := normalizeM M
  let E0 := if e < 0.8 then Mn else Real.pi
  keplerLoopCount Mn e tol maxiter E0

/-- Euclidean norm of a 3-vector. -/
def norm3 (v : ℝ × ℝ × ℝ) : ℝ :=
  Real.sqrt (v.1 * v.1 + v.2.1 * v.2.1 + v.2.2 * v.2.2)

/-- The specification's notion of complete elements: the fields `a`, `e`
and `i` are all present. -/
def elemsPresent : Option OrbElems → Prop
  | none => False
  | some el => el.a_AU ≠ none ∧ el.e ≠ none ∧ el.i_deg ≠ none

/-! ## Concrete fixtures used to exercise the theorems -/

/-- A three-entry time grid. -/
def sampleTimes : List ℝ := [0, 1, 2]

/-- A recorded coordinate array that is present (zero) at every index. -/
def constSample : ℕ → Option ℝ := fun _ => some 0

/-- An element set with `a = 1 AU` and present zero eccentricity and
inclination. -/
def wElems : OrbElems := ⟨some 1, some 0, some 0⟩

/-- An object with complete elements and recorded positions at every index. -/
def wObj : OrbObject := ⟨some wElems, constSample, constSample, constSample⟩

/-- A coordinate array that agrees with `constSample` on indices below 3
but is written differently (and differs above). -/
def constSample' : ℕ → Option ℝ := fun i => if i < 5 then some 0 else some 1

/-- An object extensionally equal to `wObj` on the grid `sampleTimes`. -/
def wObj' : OrbObject := ⟨some wElems, constSample', constSample', constSample'⟩

end

/-! ## Helper lemmas -/

theorem twoPi_pos : 0 < twoPi := by
  unfold twoPi; positivity

theorem jsRem_of_nonneg {a b : ℝ} (hb : b ≠ 0) (h : 0 ≤ a / b) :
    jsRem a b = b * Int.fract (a / b) := by
  unfold jsRem rtrunc
  rw [if_pos h, ← Int.self_sub_floor]
  field_simp

/-- The two-step JavaScript normalization `((M % 2π) + 2π) % 2π` equals the
mathematical floor-mod: `2π · fract(M / 2π)`. -/
theorem normalizeM_eq (M : ℝ) : normalizeM M = twoPi * Int.fract (M / twoPi) := by
  have hT : 0 < twoPi := twoPi_pos
  have hT0 : twoPi ≠ 0 := ne_of_gt hT
  set T := twoPi with hTdef
  set q := M / T with hq
  have hfr0 : 0 ≤ Int.fract q := Int.fract_nonneg q
  have hfr1 : Int.fract q < 1 := Int.fract_lt_one q
  have key : jsRem M T = T * Int.fract q ∨ jsRem M T = T * (Int.fract q - 1) := by
    rcases le_or_lt 0 q with hq0 | hq0
    · exact Or.inl (jsRem_of_nonneg hT0 hq0)
    · rcases Int.fract_eq_zero_or_add_one_sub_ceil q with h0 | hc
      · left
        have hqz : (⌊q⌋ : ℝ) = q := by
          have h2 := Int.self_sub_floor q
          rw [h0] at h2
          linarith
        have hceil : (⌈q⌉ : ℝ) = q := by
          rw [← hqz, Int.ceil_intCast]
        unfold jsRem rtrunc
        rw [if_neg (not_le_of_lt hq0), ← hq, hceil, h0]
        have hMq : M = T * q := by field_simp [hq]
        rw [hMq]; ring
      · right
        have hceil : (⌈q⌉ : ℝ) = q + 1 - Int.fract q := by linarith
        unfold jsRem rtrunc
        rw [if_neg (not_le_of_lt hq0), ← hq, hceil]
        have hMq : M = T * q := by field_simp [hq]
        rw [hMq]; ring
  rcases key with h1 | h1
  · unfold normalizeM
    rw [← hTdef, h1]
    have harg : (T * Int.fract q + T) / T = Int.fract q + 1 := by
      field_simp
      ring
    rw [jsRem_of_nonneg hT0 (by rw [harg]; linarith), harg, Int.fract_add_one,
      Int.fract_fract]
  · unfold normalizeM
    rw [← hTdef, h1]
    have harg : (T * (Int.fract q - 1) + T) / T = Int.fract q := by
      field_simp
      ring
    rw [jsRem_of_nonneg hT0 (by rw [harg]; linarith), harg, Int.fract_fract]

theorem normalizeM_nonneg (M : ℝ) : 0 ≤ normalizeM M := by
  rw [normalizeM_eq]
  exact mul_nonneg (le_of_lt twoPi_pos) (Int.fract_nonneg _)

theorem normalizeM_lt (M : ℝ) : normalizeM M < twoPi := by
  rw [normalizeM_eq]
  have := Int.fract_lt_one (M / twoPi)
  nlinarith [twoPi_pos]

/-- Normalization is invariant under adding whole multiples of `2π`. -/
theorem normalizeM_add_int_mul (M : ℝ) (k : ℤ) :
    normalizeM (M + twoPi * k) = normalizeM M := by
  have hT0 : twoPi ≠ 0 := ne_of_gt twoPi_pos
  rw [normalizeM_eq, normalizeM_eq]
  have harg : (M + twoPi * k) / twoPi = M / twoPi + k := by field_simp; ring
  rw [harg, Int.fract_add_int]

/-- The JavaScript normalization agrees with the specification's
floor-mod normalization. -/
theorem normalizeM_eq_specNormalize (M : ℝ) : normalizeM M = specNormalize M := by
  rw [normalizeM_eq]
  unfold specNormalize Int.fract
  have hT0 : twoPi ≠ 0 := ne_of_gt twoPi_pos
  field_simp

/-- The code's explicit rotation-matrix entries agree with the composition
`Rz(−Ω) · Rx(−i) · Rz(−ω)` of frame rotations. -/
theorem rotation_entries_eq (O i w x y z : ℝ) :
    ((Real.cos O * Real.cos w - Real.sin O * Real.sin w * Real.cos i) * x +
      (-Real.cos O * Real.sin w - Real.sin O * Real.cos w * Real.cos i) * y +
      (Real.sin O * Real.sin i) * z,
     (Real.sin O * Real.cos w + Real.cos O * Real.sin w * Real.cos i) * x +
      (-Real.sin O * Real.sin w + Real.cos O * Real.cos w * Real.cos i) * y +
      (-Real.cos O * Real.sin i) * z,
     (Real.sin w * Real.sin i) * x + (Real.cos w * Real.sin i) * y +
      (Real.cos i) * z) =
    rotZ (-O) (rotX (-i) (rotZ (-w) (x, y, z))) := by
  simp only [rotZ, rotX, Real.cos_neg, Real.sin_neg]
  refine Prod.ext ?_ (Prod.ext ?_ ?_) <;> simp <;> ring

/-- `rotZ` preserves the squared Euclidean norm. -/
theorem rotZ_normSq (t : ℝ) (v : ℝ × ℝ × ℝ) :
    (rotZ t v).1 * (rotZ t v).1 + (rotZ t v).2.1 * (rotZ t v).2.1 +
      (rotZ t v).2.2 * (rotZ t v).2.2 =
    v.1 * v.1 + v.2.1 * v.2.1 + v.2.2 * v.2.2 := by
  simp only [rotZ]
  linear_combination (v.1 * v.1 + v.2.1 * v.2.1) * Real.sin_sq_add_cos_sq t

/-- `rotX` preserves the squared Euclidean norm. -/
theorem rotX_normSq (t : ℝ) (v : ℝ × ℝ × ℝ) :
    (rotX t v).1 * (rotX t v).1 + (rotX t v).2.1 * (rotX t v).2.1 +
      (rotX t v).2.2 * (rotX t v).2.2 =
    v.1 * v.1 + v.2.1 * v.2.1 + v.2.2 * v.2.2 := by
  simp only [rotX]
  linear_combination (v.2.1 * v.2.1 + v.2.2 * v.2.2) * Real.sin_sq_add_cos_sq t

/-- The embedded Newton loop of the code agrees step by step with the
specification's wording of the iteration. -/
theorem keplerLoop_eq_specNewton (M e tol : ℝ) :
    ∀ (fuel : ℕ) (E : ℝ), keplerLoop M e tol fuel E = specNewton M e tol fuel E := by
  intro fuel
  induction fuel with
  | zero => intro E; rfl
  | succ n ih =>
    intro E
    simp only [keplerLoop, specNewton, keplerStep]
    have hE : E + -(E - e * Real.sin E - M) / (1 - e * Real.cos E) =
        E - (E - e * Real.sin E - M) / (1 - e * Real.cos E) := by ring
    have habs : |E + -(E - e * Real.sin E - M) / (1 - e * Real.cos E) - E| =
        |(E - e * Real.sin E - M) / (1 - e * Real.cos E)| := by
      rw [show E + -(E - e * Real.sin E - M) / (1 - e * Real.cos E) - E =
        -((E - e * Real.sin E - M) / (1 - e * Real.cos E)) by ring, abs_neg]
    rw [habs, hE]
    by_cases h : |(E - e * Real.sin E - M) / (1 - e * Real.cos E)| < tol
    · rw [if_pos h, if_pos h]
    · rw [if_neg h, if_neg h, ih]

/-- The mean motion is positive for a positive semi-major axis. -/
theorem meanMotion_pos {a_AU : ℝ} (h : 0 < a_AU) : 0 < meanMotion a_AU := by
  unfold meanMotion
  apply Real.sqrt_pos.mpr
  apply div_pos
  · unfold MU_SUN; norm_num
  · have hA : (0:ℝ) < AU_KM := by unfold AU_KM; norm_num
    positivity

/-- The solver result depends on the mean anomaly only through its
normalization. -/
theorem solveKepler_congr {M M' : ℝ} (e tol : ℝ) (maxiter : ℕ)
    (h : normalizeM M = normalizeM M') :
    solveKepler M e tol maxiter = solveKepler M' e tol maxiter := by
  unfold solveKepler
  rw [h]

/-- The loop of `solveKepler` performs at most `fuel` Newton updates. -/
theorem keplerLoopCount_le (M e tol : ℝ) :
    ∀ (fuel : ℕ) (E : ℝ), keplerLoopCount M e tol fuel E ≤ fuel := by
  intro fuel
  induction fuel with
  | zero => intro E; simp [keplerLoopCount]
  | succ n ih =>
    intro E
    simp only [keplerLoopCount]
    split
    · omega
    · have := ih (keplerStep M e E)
      omega

/-- The loop of `solveKepler` returns exactly the iterate of the Newton
step reached after `keplerLoopCount` updates. -/
theorem keplerLoop_eq_iterate (M e tol : ℝ) :
    ∀ (fuel : ℕ) (E : ℝ),
      keplerLoop M e tol fuel E =
        (keplerStep M e)^[keplerLoopCount M e tol fuel E] E := by
  intro fuel
  induction fuel with
  | zero => intro E; rfl
  | succ n ih =>
    intro E
    simp only [keplerLoop, keplerLoopCount]
    by_cases h : |keplerStep M e E - E| < tol
    · rw [if_pos h, if_pos h]
      rfl
    · rw [if_neg h, if_neg h, ih, add_comm 1, Function.iterate_succ_apply]

/-! ## The claims -/

/-- C1: for every orbital-element tuple and every (possibly absent) target
Julian date, `elementsToPosition` returns exactly the position given by the
specification's reference pipeline: `a_km = a·149597870.7`,
`n = √(1.32712440018e11 / a_km³)`, linear advance of the mean anomaly in
seconds when a target date is present, the Kepler solver, true anomaly by
`atan2`, radius `a_km·(1 − e·cos E)`, and the perifocal vector rotated by
`Rz(−Ω)·Rx(−i)·Rz(−ω)`. -/
theorem elementsToPosition_eq_referencePosition
    (a_AU e i_deg Omega_deg omega_deg M_deg epochJD : ℝ) (targetJD : Option ℝ) :
    elementsToPosition a_AU e i_deg Omega_deg omega_deg M_deg epochJD targetJD =
      referencePosition a_AU e i_deg Omega_deg omega_deg M_deg epochJD targetJD := by
  dsimp only [elementsToPosition, referencePosition, meanMotion]
  exact rotation_entries_eq _ _ _ _ _ _

/-- C2: `solveKepler` implements the specification's
`solveEccentricAnomaly`: it normalizes `M` into `[0, 2π)` (shifting by a
whole multiple of `2π`), takes initial guess `E₀ = M` when `e < 0.8` and
`E₀ = π` otherwise, iterates the Newton–Raphson update, and returns the
current iterate as soon as the last update moved by less than `tol` or
after at most `maxIterations` updates, with no error on non-convergence. -/
theorem solveKepler_meets_spec (M e tol : ℝ) (maxIterations : ℕ) :
    solveKepler M e tol maxIterations = solveEccentricAnomaly M e tol maxIterations ∧
      0 ≤ normalizeM M ∧ normalizeM M < twoPi ∧
      ∃ k : ℤ, M - normalizeM M = twoPi * k := by
  refine ⟨?_, normalizeM_nonneg M, normalizeM_lt M, ⟨⌊M / twoPi⌋, ?_⟩⟩
  · dsimp only [solveKepler, solveEccentricAnomaly]
    rw [normalizeM_eq_specNormalize, keplerLoop_eq_specNewton]
  · rw [normalizeM_eq_specNormalize]
    unfold specNormalize
    ring

/-- The code's rotation of a vector preserves the Euclidean norm. -/
theorem norm3_rotation (O i w x y z : ℝ) :
    norm3 ((Real.cos O * Real.cos w - Real.sin O * Real.sin w * Real.cos i) * x +
      (-Real.cos O * Real.sin w - Real.sin O * Real.cos w * Real.cos i) * y +
      (Real.sin O * Real.sin i) * z,
     (Real.sin O * Real.cos w + Real.cos O * Real.sin w * Real.cos i) * x +
      (-Real.sin O * Real.sin w + Real.cos O * Real.cos w * Real.cos i) * y +
      (-Real.cos O * Real.sin i) * z,
     (Real.sin w * Real.sin i) * x + (Real.cos w * Real.sin i) * y +
      (Real.cos i) * z) = norm3 (x, y, z) := by
  rw [rotation_entries_eq]
  unfold norm3
  rw [rotZ_normSq, rotX_normSq, rotZ_normSq]

/-- The perifocal vector `(r·cos ν, r·sin ν, 0)` has norm `r` for `r ≥ 0`. -/
theorem norm3_perifocal (r ν : ℝ) (hr : 0 ≤ r) :
    norm3 (r * Real.cos ν, r * Real.sin ν, 0) = r := by
  unfold norm3
  rw [show r * Real.cos ν * (r * Real.cos ν) + r * Real.sin ν * (r * Real.sin ν) +
      (0:ℝ) * 0 = r ^ 2 by linear_combination r ^ 2 * Real.sin_sq_add_cos_sq ν]
  exact Real.sqrt_sq hr

/-- C6: for a circular orbit (`e = 0`) with positive semi-major axis, the
Euclidean norm of the position returned by `elementsToPosition` equals
`a · 149597870.7` km, exactly in real arithmetic, for every target date. -/
theorem elementsToPosition_circular_radius
    (a_AU i_deg Omega_deg omega_deg M_deg epochJD : ℝ) (targetJD : Option ℝ)
    (ha : 0 < a_AU) :
    norm3 (elementsToPosition a_AU 0 i_deg Omega_deg omega_deg M_deg epochJD targetJD) =
      a_AU * AU_KM := by
  have hA : (0:ℝ) < AU_KM := by unfold AU_KM; norm_num
  dsimp only [elementsToPosition]
  rw [norm3_rotation, norm3_perifocal]
  · ring
  · simp
    positivity

/-- `solveKepler` with the default tolerance and iteration cap depends on
the mean anomaly only through its normalization. -/
theorem solveKeplerD_congr {M M' : ℝ} (e : ℝ) (h : normalizeM M = normalizeM M') :
    solveKeplerD M e = solveKeplerD M' e := by
  unfold solveKeplerD
  exact solveKepler_congr e 1e-9 80 h

/-- C7: advancing the target date by a whole number `k` of orbital periods
(`period = 2π / meanMotion`, converted to days) leaves the position returned
by `elementsToPosition` unchanged — exactly, in real arithmetic: the mean
anomaly moves by `2π·k` and the solver normalizes it away. -/
theorem elementsToPosition_periodic
    (a_AU e i_deg Omega_deg omega_deg M_deg epochJD : ℝ) (k : ℤ)
    (ha : 0 < a_AU) :
    elementsToPosition a_AU e i_deg Omega_deg omega_deg M_deg epochJD
        (some (epochJD + k * (twoPi / meanMotion a_AU / 86400))) =
      elementsToPosition a_AU e i_deg Omega_deg omega_deg M_deg epochJD
        (some epochJD) := by
  have hn : 0 < meanMotion a_AU := meanMotion_pos ha
  have hn0 : meanMotion a_AU ≠ 0 := ne_of_gt hn
  dsimp only [elementsToPosition]
  rw [show M_deg * Real.pi / 180 + meanMotion a_AU *
        ((epochJD + ↑k * (twoPi / meanMotion a_AU / 86400) - epochJD) * 86400.0) =
      (M_deg * Real.pi / 180 + meanMotion a_AU * ((epochJD - epochJD) * 86400.0)) +
        twoPi * ↑k by
    field_simp
    ring]
  rw [solveKeplerD_congr e (normalizeM_add_int_mul
    (M_deg * Real.pi / 180 + meanMotion a_AU * ((epochJD - epochJD) * 86400.0)) k)]

/-- C8: no call can diverge or fail, whatever the numeric inputs (including
contract-violating ones): the Newton loop performs at most `maxiter`
updates, and `solveKepler` returns exactly the iterate of the (total)
Newton step reached after that many updates from the initial guess. In
this embedding `elementsToPosition` is a total composition of total
real-valued operations on top of this solver, so every call returns a
value; no exception mechanism exists on any path. -/
theorem solveKepler_total_within_cap (M e tol : ℝ) (maxiter : ℕ) :
    solveKeplerCount M e tol maxiter ≤ maxiter ∧
      solveKepler M e tol maxiter =
        (keplerStep (normalizeM M) e)^[solveKeplerCount M e tol maxiter]
          (if e < 0.8 then normalizeM M else Real.pi) := by
  constructor
  · exact keplerLoopCount_le (normalizeM M) e tol maxiter _
  · exact keplerLoop_eq_iterate (normalizeM M) e tol maxiter _

/-! ## Lemmas on the sampling loop -/

theorem strideCollect_eq_cons (len step j cap : ℕ) (h : j < len) :
    strideCollect len step j (cap + 1) = j :: strideCollect len step (j + step) cap := by
  simp [strideCollect, if_pos h]

theorem strideCollect_eq_nil (len step j cap : ℕ) (h : ¬ j < len) :
    strideCollect len step j cap = [] := by
  cases cap with
  | zero => rfl
  | succ c => simp [strideCollect, if_neg h]

theorem strideCollect_length_le (len step : ℕ) :
    ∀ (cap j : ℕ), (strideCollect len step j cap).length ≤ cap := by
  intro cap
  induction cap with
  | zero => intro j; simp [strideCollect]
  | succ c ih =>
    intro j
    by_cases h : j < len
    · rw [strideCollect_eq_cons len step j c h]
      simpa using ih (j + step)
    · rw [strideCollect_eq_nil len step j (c + 1) h]
      simp

theorem strideCollect_mem_lt (len step : ℕ) :
    ∀ (cap j m : ℕ), m ∈ strideCollect len step j cap → m < len := by
  intro cap
  induction cap with
  | zero => intro j m hm; simp [strideCollect] at hm
  | succ c ih =>
    intro j m hm
    by_cases h : j < len
    · rw [strideCollect_eq_cons len step j c h] at hm
      rcases List.mem_cons.mp hm with h1 | h1
      · omega
      · exact ih (j + step) m h1
    · rw [strideCollect_eq_nil len step j (c + 1) h] at hm
      simp at hm

theorem strideCollect_head (len step j cap : ℕ) :
    ∀ m ∈ (strideCollect len step j cap).head?, m = j := by
  intro m hm
  cases cap with
  | zero => simp [strideCollect] at hm
  | succ c =>
    by_cases h : j < len
    · rw [strideCollect_eq_cons len step j c h] at hm
      simp at hm
      omega
    · rw [strideCollect_eq_nil len step j (c + 1) h] at hm
      simp at hm

theorem strideCollect_chain (len step : ℕ) :
    ∀ (cap j : ℕ),
      List.Chain' (fun a b => b = a + step) (strideCollect len step j cap) := by
  intro cap
  induction cap with
  | zero => intro j; simp [strideCollect]
  | succ c ih =>
    intro j
    by_cases h : j < len
    · rw [strideCollect_eq_cons len step j c h]
      refine List.chain'_cons'.mpr ⟨?_, ih (j + step)⟩
      intro y hy
      exact (strideCollect_head len step (j + step) c y hy).symm ▸ rfl
    · rw [strideCollect_eq_nil len step j (c + 1) h]
      simp

theorem strideCollect_pairwise (len step : ℕ) (hstep : 1 ≤ step) (cap j : ℕ) :
    List.Pairwise (· < ·) (strideCollect len step j cap) := by
  rw [← List.chain'_iff_pairwise]
  exact (strideCollect_chain len step cap j).imp fun a b h => by omega

/-- The fold of `crossValidateElements` accumulates exactly the sum of the
per-sample squared residuals and the number of samples. -/
theorem foldl_sum_count (f : ℕ → ℝ) :
    ∀ (l : List ℕ) (s : ℝ) (c : ℕ),
      l.foldl (fun (p : ℝ × ℕ) idx => (p.1 + f idx, p.2 + 1)) (s, c) =
        (s + (l.map f).sum, c + l.length) := by
  intro l
  induction l with
  | nil => intro s c; simp
  | cons a t ih =>
    intro s c
    rw [List.foldl_cons, ih]
    refine Prod.ext ?_ ?_
    · simp
      ring
    · simp
      omega

theorem selectSamples_length_le (len cap : ℕ) : (selectSamples len cap).length ≤ cap :=
  strideCollect_length_le len _ cap 0

theorem selectSamples_mem_lt (len cap : ℕ) :
    ∀ m ∈ selectSamples len cap, m < len := fun m hm =>
  strideCollect_mem_lt len _ cap 0 m hm

theorem selectSamples_ne_nil (len cap : ℕ) (hlen : 0 < len) (hcap : 0 < cap) :
    selectSamples len cap ≠ [] := by
  unfold selectSamples
  rcases Nat.exists_eq_add_of_lt hcap with ⟨c, hc⟩
  subst hc
  rw [show 0 + c + 1 = c + 1 by omega, strideCollect_eq_cons len _ 0 c hlen]
  simp

theorem validIdx_mem_lt (times_jd : List ℝ) (obj : OrbObject) :
    ∀ i ∈ validIdx times_jd obj, i < times_jd.length := by
  intro i hi
  unfold validIdx at hi
  exact List.mem_range.mp (List.mem_filter.mp hi).1

theorem sampleIndices_mem_lt (times_jd : List ℝ) (obj : OrbObject) (n : ℕ) :
    ∀ idx ∈ sampleIndices times_jd obj n, idx < times_jd.length := by
  intro idx hidx
  unfold sampleIndices at hidx
  rcases List.mem_map.mp hidx with ⟨j, hj, rfl⟩
  have hjlt : j < (validIdx times_jd obj).length := selectSamples_mem_lt _ _ j hj
  rw [List.getD_eq_getElem _ _ hjlt]
  exact validIdx_mem_lt times_jd obj _ (List.getElem_mem hjlt)

theorem sampleIndices_length_pos (times_jd : List ℝ) (obj : OrbObject) (n : ℕ)
    (hv : 0 < (validIdx times_jd obj).length) (hn : 1 ≤ n) :
    0 < (sampleIndices times_jd obj n).length := by
  unfold sampleIndices
  rw [List.length_map]
  exact List.length_pos.mpr (selectSamples_ne_nil _ n hv hn)

/-- The positive branch of `crossValidateElements`, in closed form. -/
theorem crossValidateElements_pos_branch (times_jd : List ℝ) (obj : OrbObject)
    (n : ℕ) (a e i : ℝ) (hel : getElems obj.elements = some (a, e, i))
    (hv : 3 ≤ (validIdx times_jd obj).length) (hn : 1 ≤ n) :
    crossValidateElements times_jd obj n =
      some ⟨Real.sqrt
          (((sampleIndices times_jd obj n).map (sqResidual times_jd obj a e i)).sum /
            (sampleIndices times_jd obj n).length),
        (sampleIndices times_jd obj n).length⟩ := by
  unfold crossValidateElements
  rw [hel]
  dsimp only
  have h3 : ¬ (validIdx times_jd obj).length < 3 := by omega
  rw [if_neg h3]
  have hpos : 0 < (sampleIndices times_jd obj n).length :=
    sampleIndices_length_pos times_jd obj n (by omega) hn
  simp only [foldl_sum_count, Nat.zero_add, zero_add]
  rw [if_neg (by omega)]

/-- If the guard of `crossValidateElements` rejects the elements even though
no field is outright missing, the semi-major axis must be present but zero. -/
theorem getElems_none_not_present (oe : Option OrbElems)
    (ha : ∀ el v, oe = some el → el.a_AU = some v → v ≠ 0)
    (h : getElems oe = none) : ¬ elemsPresent oe := by
  cases oe with
  | none => simp [elemsPresent]
  | some el =>
    rcases el with ⟨oa, oec, oi⟩
    intro hp
    have hp' : oa ≠ none ∧ oec ≠ none ∧ oi ≠ none := hp
    rcases hp' with ⟨h1, h2, h3⟩
    rcases Option.ne_none_iff_exists'.mp h1 with ⟨a, rfl⟩
    rcases Option.ne_none_iff_exists'.mp h2 with ⟨e, rfl⟩
    rcases Option.ne_none_iff_exists'.mp h3 with ⟨i, rfl⟩
    have hane : a ≠ 0 := ha ⟨some a, some e, some i⟩ a rfl rfl
    simp [getElems, hane] at h

/-- If the guard of `crossValidateElements` accepts the elements, all three
fields are present. -/
theorem getElems_some_present (oe : Option OrbElems) (t : ℝ × ℝ × ℝ)
    (h : getElems oe = some t) : elemsPresent oe := by
  cases oe with
  | none => simp [getElems] at h
  | some el =>
    rcases el with ⟨oa, oec, oi⟩
    cases oa with
    | none => simp [getElems] at h
    | some a =>
      cases oec with
      | none => simp [getElems] at h
      | some e =>
        cases oi with
        | none => simp [getElems] at h
        | some i => exact ⟨Option.some_ne_none a, Option.some_ne_none e, Option.some_ne_none i⟩

/-- The guard of `crossValidateElements` accepts the fixture `wObj`. -/
theorem wObj_getElems : getElems wObj.elements = some (1, 0, 0) := by
  simp [wObj, wElems, getElems]

/-- Every index of the three-entry grid is valid for the fixture `wObj`. -/
theorem wObj_validIdx : validIdx sampleTimes wObj = [0, 1, 2] := by
  unfold validIdx sampleTimes wObj constSample
  simp [List.range_succ]

/-- C3: for an object with complete elements and at least 3 valid recorded
samples (and a positive requested sample count), `crossValidateElements`
propagates each selected sample via `elementsToPosition` at that sample's
Julian date with `Ω = ω = M₀ = 0` and `epoch = 2451545.0`, accumulates the
squared Euclidean distances (absent z treated as 0), and returns
`rms_km = √(Σ d² / count)` together with the selected-sample count. -/
theorem crossValidate_rms_formula (times_jd : List ℝ) (obj : OrbObject)
    (numSamples : ℕ) (a e i : ℝ)
    (hel : getElems obj.elements = some (a, e, i))
    (hv : 3 ≤ (validIdx times_jd obj).length)
    (hn : 1 ≤ numSamples) :
    crossValidateElements times_jd obj numSamples =
      some ⟨Real.sqrt
          (((sampleIndices times_jd obj numSamples).map
              (sqResidual times_jd obj a e i)).sum /
            (sampleIndices times_jd obj numSamples).length),
        (sampleIndices times_jd obj numSamples).length⟩ :=
  crossValidateElements_pos_branch times_jd obj numSamples a e i hel hv hn

/-- Witness for C3 at the fixture `wObj` on the grid `sampleTimes`. -/
theorem crossValidate_rms_formula_witness :
    getElems wObj.elements = some (1, 0, 0) ∧
    3 ≤ (validIdx sampleTimes wObj).length ∧
    1 ≤ 10 ∧
    crossValidateElements sampleTimes wObj 10 =
      some ⟨Real.sqrt
          (((sampleIndices sampleTimes wObj 10).map
              (sqResidual sampleTimes wObj 1 0 0)).sum /
            (sampleIndices sampleTimes wObj 10).length),
        (sampleIndices sampleTimes wObj 10).length⟩ :=
  ⟨wObj_getElems, by rw [wObj_validIdx]; simp, by norm_num,
   crossValidate_rms_formula sampleTimes wObj 10 1 0 0 wObj_getElems
     (by rw [wObj_validIdx]; simp) (by norm_num)⟩

/-- C5: the sampling of `crossValidateElements` selects at most `cap`
positions, all inside the valid range, consecutive selections differing by
exactly the stride `max(1, ⌊len / cap⌋)`, hence strictly increasing
(chronological); it is nonempty when possible and starts at position 0; with
`cap = 5` over 1000 valid samples it selects exactly positions
`[0, 200, 400, 600, 800]`, spanning the whole range. -/
theorem selectSamples_even_spacing (len cap : ℕ) :
    (selectSamples len cap).length ≤ cap ∧
    (∀ j ∈ selectSamples len cap, j < len) ∧
    List.Chain' (fun a b => b = a + max 1 (len / cap)) (selectSamples len cap) ∧
    List.Pairwise (· < ·) (selectSamples len cap) ∧
    (0 < len → 0 < cap → selectSamples len cap ≠ []) ∧
    (∀ m ∈ (selectSamples len cap).head?, m = 0) ∧
    selectSamples 1000 5 = [0, 200, 400, 600, 800] :=
  ⟨selectSamples_length_le len cap,
   selectSamples_mem_lt len cap,
   strideCollect_chain len (max 1 (len / cap)) cap 0,
   strideCollect_pairwise len (max 1 (len / cap)) (le_max_left 1 (len / cap)) cap 0,
   fun hlen hcap => selectSamples_ne_nil len cap hlen hcap,
   strideCollect_head len (max 1 (len / cap)) 0 cap,
   by decide⟩

/-- Witness for C5: the concrete 1000-sample, 5-cap selection, and one
membership instance of the range bound. -/
theorem selectSamples_even_spacing_witness :
    800 < 1000 ∧ selectSamples 1000 5 = [0, 200, 400, 600, 800] :=
  ⟨(selectSamples_even_spacing 1000 5).2.1 800 (by decide),
   (selectSamples_even_spacing 1000 5).2.2.2.2.2.2⟩

/-- C4: over element records respecting the data model (a present
semi-major axis is nonzero, as the specification requires `a > 0`) and a
positive requested sample count, `crossValidateElements` returns `none`
exactly when fewer than 3 recorded samples have non-absent x and y, or the
elements are absent or incomplete (missing `a`, `e`, or `i`); in every other
case it returns a result with `rms_km ≥ 0` and `samples ≥ 1`, so the absent
outcome is distinguishable from a computed zero RMS and the internal
zero-sample branch never fires. -/
theorem crossValidate_none_iff (times_jd : List ℝ) (obj : OrbObject) (n : ℕ)
    (hn : 1 ≤ n)
    (ha : ∀ el v, obj.elements = some el → el.a_AU = some v → v ≠ 0) :
    (crossValidateElements times_jd obj n = none ↔
      ((validIdx times_jd obj).length < 3 ∨ ¬ elemsPresent obj.elements)) ∧
    (∀ r, crossValidateElements times_jd obj n = some r →
      0 ≤ r.rms_km ∧ 1 ≤ r.samples) := by
  cases hel : getElems obj.elements with
  | none =>
    have hnone : crossValidateElements times_jd obj n = none := by
      unfold crossValidateElements
      rw [hel]
    refine ⟨⟨fun _ => Or.inr (getElems_none_not_present obj.elements ha hel), fun _ => hnone⟩, ?_⟩
    intro r hr
    rw [hnone] at hr
    exact absurd hr (by simp)
  | some t =>
    rcases t with ⟨a, e, i⟩
    by_cases h3 : (validIdx times_jd obj).length < 3
    · have hnone : crossValidateElements times_jd obj n = none := by
        unfold crossValidateElements
        rw [hel]
        dsimp only
        rw [if_pos h3]
      refine ⟨⟨fun _ => Or.inl h3, fun _ => hnone⟩, ?_⟩
      intro r hr
      rw [hnone] at hr
      exact absurd hr (by simp)
    · have hsome := crossValidateElements_pos_branch times_jd obj n a e i hel (by omega) hn
      have hlen : 1 ≤ (sampleIndices times_jd obj n).length :=
        sampleIndices_length_pos times_jd obj n (by omega) hn
      constructor
      · rw [hsome]
        simp only [reduceCtorEq, false_iff]
        push_neg
        exact ⟨by omega, getElems_some_present obj.elements (a, e, i) hel⟩
      · intro r hr
        rw [hsome] at hr
        rcases Option.some.inj hr with rfl
        exact ⟨Real.sqrt_nonneg _, hlen⟩

/-- Witness for C4 at the fixture `wObj`. -/
theorem crossValidate_none_iff_witness :
    1 ≤ 10 ∧
    (∀ el v, wObj.elements = some el → el.a_AU = some v → v ≠ 0) ∧
    (crossValidateElements sampleTimes wObj 10 = none ↔
      ((validIdx sampleTimes wObj).length < 3 ∨ ¬ elemsPresent wObj.elements)) ∧
    (∀ r, crossValidateElements sampleTimes wObj 10 = some r →
      0 ≤ r.rms_km ∧ 1 ≤ r.samples) := by
  have hA : ∀ el v, wObj.elements = some el → el.a_AU = some v → v ≠ 0 := by
    intro el v h1 h2
    rcases Option.some.inj h1 with rfl
    simp only [wElems] at h2
    rcases Option.some.inj h2 with rfl
    norm_num
  exact ⟨by norm_num, hA,
    (crossValidate_none_iff sampleTimes wObj 10 (by norm_num) hA).1,
    (crossValidate_none_iff sampleTimes wObj 10 (by norm_num) hA).2⟩

/-- C9: `crossValidateElements` is deterministic and reads nothing but its
inputs: two objects with the same elements whose recorded coordinate arrays
agree on every index of the time grid produce identical results. (In this
embedding all inputs are immutable values, so the call cannot modify the
elements or the samples.) -/
theorem crossValidate_deterministic (times_jd : List ℝ) (o1 o2 : OrbObject)
    (n : ℕ)
    (he : o1.elements = o2.elements)
    (hx : ∀ i < times_jd.length, o1.x i = o2.x i)
    (hy : ∀ i < times_jd.length, o1.y i = o2.y i)
    (hz : ∀ i < times_jd.length, o1.z i = o2.z i) :
    crossValidateElements times_jd o1 n = crossValidateElements times_jd o2 n := by
  have hvalid : validIdx times_jd o1 = validIdx times_jd o2 := by
    unfold validIdx
    apply List.filter_congr
    intro i hi
    have hlt := List.mem_range.mp hi
    rw [hx i hlt, hy i hlt]
  have hsamp : sampleIndices times_jd o1 n = sampleIndices times_jd o2 n := by
    unfold sampleIndices
    rw [hvalid]
  have hres : ∀ a e i : ℝ, ∀ idx ∈ sampleIndices times_jd o2 n,
      sqResidual times_jd o1 a e i idx = sqResidual times_jd o2 a e i idx := by
    intro a e i idx hidx
    have hlt := sampleIndices_mem_lt times_jd o2 n idx hidx
    unfold sqResidual
    rw [hx idx hlt, hy idx hlt, hz idx hlt]
  unfold crossValidateElements
  rw [he]
  cases hge : getElems o2.elements with
  | none => rfl
  | some t =>
    rcases t with ⟨a, ei⟩
    rcases ei with ⟨e, i⟩
    dsimp only
    rw [hvalid, hsamp]
    by_cases h3 : (validIdx times_jd o2).length < 3
    · rw [if_pos h3, if_pos h3]
    · rw [if_neg h3, if_neg h3]
      simp only [foldl_sum_count, zero_add, Nat.zero_add]
      rw [List.map_congr_left (hres a e i)]

/-- Witness for C9: `wObj` and `wObj'` have syntactically different sample
arrays that agree on the grid, and validate identically. -/
theorem crossValidate_deterministic_witness :
    wObj.elements = wObj'.elements ∧
    (∀ i < sampleTimes.length, wObj.x i = wObj'.x i) ∧
    (∀ i < sampleTimes.length, wObj.y i = wObj'.y i) ∧
    (∀ i < sampleTimes.length, wObj.z i = wObj'.z i) ∧
    crossValidateElements sampleTimes wObj 10 =
      crossValidateElements sampleTimes wObj' 10 := by
  have hagree : ∀ i < sampleTimes.length, constSample i = constSample' i := by
    intro i hi
    unfold sampleTimes at hi
    simp only [List.length_cons, List.length_nil] at hi
    unfold constSample constSample'
    rw [if_pos (by omega)]
  exact ⟨rfl, hagree, hagree, hagree,
    crossValidate_deterministic sampleTimes wObj wObj' 10 rfl hagree hagree hagree⟩

/-- C10: an element record carrying `a_AU = 0` is rejected by the falsy
guard of `crossValidateElements` — the call returns `none` however many
valid samples are recorded — even though all three fields are present;
by contrast, present zero eccentricity and inclination (as in `wObj`) pass
the guard, so the three elements are not screened uniformly. -/
theorem crossValidate_falsy_axis (times_jd : List ℝ) (x y z : ℕ → Option ℝ)
    (e i : ℝ) (n : ℕ) :
    crossValidateElements times_jd ⟨some ⟨some 0, some e, some i⟩, x, y, z⟩ n = none ∧
    getElems (some ⟨some 0, some e, some i⟩) = none ∧
    elemsPresent (some (⟨some 0, some e, some i⟩ : OrbElems)) ∧
    crossValidateElements sampleTimes wObj 10 ≠ none := by
  refine ⟨?_, ?_, ?_, ?_⟩
  · unfold crossValidateElements
    simp [getElems]
  · simp [getElems]
  · exact ⟨Option.some_ne_none _, Option.some_ne_none _, Option.some_ne_none _⟩
  · rw [crossValidateElements_pos_branch sampleTimes wObj 10 1 0 0 wObj_getElems
      (by rw [wObj_validIdx]; simp) (by norm_num)]
    simp

/-- Witness for C10: the falsy-axis rejection at a concrete object with
three valid recorded samples. -/
theorem crossValidate_falsy_axis_witness :
    crossValidateElements sampleTimes
        ⟨some ⟨some 0, some 0.5, some 1⟩, constSample, constSample, constSample⟩
        10 = none :=
  (crossValidate_falsy_axis sampleTimes constSample constSample constSample 0.5 1 10).1

/-- Witness for C6: a circular 1-AU orbit propagated at the epoch sits at
exactly one AU from the origin. -/
theorem elementsToPosition_circular_radius_witness :
    0 < (1:ℝ) ∧
    norm3 (elementsToPosition 1 0 0 0 0 0 2451545.0 none) = 1 * AU_KM :=
  ⟨by norm_num,
   elementsToPosition_circular_radius 1 0 0 0 0 2451545.0 none (by norm_num)⟩

/-- Witness for C7: one full period after the epoch, the 1-AU circular
orbit returns to its epoch position. -/
theorem elementsToPosition_periodic_witness :
    0 < (1:ℝ) ∧
    elementsToPosition 1 0 0 0 0 0 2451545.0
        (some (2451545.0 + ((1:ℤ) : ℝ) * (twoPi / meanMotion 1 / 86400))) =
      elementsToPosition 1 0 0 0 0 0 2451545.0 (some 2451545.0) :=
  ⟨by norm_num,
   elementsToPosition_periodic 1 0 0 0 0 0 2451545.0 1 (by norm_num)⟩

end Orbital
